import Mathlib

/-!
pdk/oneway: error short-circuiting in a chain of shopping steps.

A shallow embedding of the three Go programs `v3/main.go`, `v5/main.go` and
`v7/main.go`.

* Go's `int` is modelled as an `Int` kept inside the 64-bit two's-complement
  range; every arithmetic operator of the source is followed by `wrap`.
* Go's `error` is modelled as `Option GoError` (`none` is `nil`); a `GoError`
  holds the message built by `fmt.Errorf`.
* The declarations that are textually identical in the three files
  (constants, `Shopper`, `NewShopper`, and for v5/v7 also `Drive` and
  `BuyEggs`) are embedded once.
-/

namespace Oneway

/-! ## Machine integers -/

/-- Smallest value of a 64-bit Go `int`. -/
def minInt : Int := -(2 ^ 63)

/-- Largest value of a 64-bit Go `int`. -/
def maxInt : Int := 2 ^ 63 - 1

/-- Two's-complement wrap-around of an exact result into the 64-bit range. -/
def wrap (x : Int) : Int := (x + 2 ^ 63) % 2 ^ 64 - 2 ^ 63

/-- The integer is representable as a 64-bit Go `int`. -/
def isInt (x : Int) : Prop := minInt ≤ x ∧ x ≤ maxInt

instance (x : Int) : Decidable (isInt x) :=
  inferInstanceAs (Decidable (minInt ≤ x ∧ x ≤ maxInt))

/-! ## Errors -/

/-- The value behind a non-nil Go `error`: the message text. -/
structure GoError where
  msg : String
deriving DecidableEq, Repr

/-- The verb `%d` of package `fmt` applied to an `int`: decimal digits, with a
leading minus sign for a negative number. -/
def fmtD (n : Int) : String :=
  if n < 0 then "-" ++ Nat.repr n.natAbs else Nat.repr n.natAbs

/-! ## Configuration constants (identical in v3, v5 and v7) -/

def FuelNeededToGetToStore : Int := 5
def FuelNeededToGetHome : Int := 4
def EggsAvailableAtStore : Int := 24
def CostPerEgg : Int := 1
def FuelInCar : Int := 15
def DollarsInWallet : Int := 10
def EggsRequired : Int := 6

/-! ## The shopper -/

/-- Shopper is a resource to go buy eggs. -/
structure Shopper where
  Fuel : Int
  Dollars : Int
  Eggs : Int
deriving DecidableEq, Repr

/-- All three fields of the shopper are representable as Go `int`s. -/
def Shopper.valid (s : Shopper) : Prop :=
  isInt s.Fuel ∧ isInt s.Dollars ∧ isInt s.Eggs

instance (s : Shopper) : Decidable s.valid :=
  inferInstanceAs (Decidable (isInt s.Fuel ∧ isInt s.Dollars ∧ isInt s.Eggs))

/-- NewShopper constructs a new Shopper with specified fuel, dollars, but 0 eggs. -/
def NewShopper (fuelInCar dollarsInWallet : Int) : Shopper :=
  { Fuel := fuelInCar, Dollars := dollarsInWallet, Eggs := 0 }

/-- A step of the v7 processor: `func(Shopper) (Shopper, error)`. -/
abbrev Step := Shopper → Shopper × Option GoError

/-- A two-argument operation: `func(Shopper, int) (Shopper, error)`. -/
abbrev Operation := Shopper → Int → Shopper × Option GoError

/-! ## v5 and v7: `Drive` and `BuyEggs` -/

/-- Drive reduces fuel by distance; with not enough fuel the shopper runs out
of gas (v5/main.go and v7/main.go, lines 44-55). -/
def Drive (s : Shopper) (fuelRequired : Int) : Shopper × Option GoError :=
  let s1 : Shopper := { s with Fuel := wrap (s.Fuel - fuelRequired) }
  if s1.Fuel < 0 then
    let err : GoError :=
      ⟨"ran out of gas " ++ fmtD (wrap (s1.Fuel * -1)) ++ " from destination"⟩
    ({ s1 with Fuel := 0 }, some err)
  else
    (s1, none)

/-- BuyEggs checks if there are enough eggs, and if the shopper can afford
them (v5/main.go and v7/main.go, lines 57-75). -/
def BuyEggs (s : Shopper) (howMany : Int) : Shopper × Option GoError :=
  if howMany > EggsAvailableAtStore then
    (s, some ⟨"there are only " ++ fmtD EggsAvailableAtStore
      ++ " eggs available, but we need " ++ fmtD howMany⟩)
  else
    let totalCost : Int := wrap (howMany * CostPerEgg)
    if totalCost > s.Dollars then
      (s, some ⟨"only have " ++ fmtD s.Dollars ++ " dollars, but need "
        ++ fmtD totalCost ++ " to buy " ++ fmtD howMany ++ " eggs"⟩)
    else
      let s1 : Shopper := { s with Eggs := wrap (s.Eggs + howMany) }
      let s2 : Shopper := { s1 with Dollars := wrap (s1.Dollars - totalCost) }
      (s2, none)

/-! ## v7: `Flavorize` and `ProcessSteps` -/

/-- Flavorize creates a single-arg function by closing over the integer
argument (v7/main.go, lines 77-82). -/
def Flavorize (f : Operation) (arg : Int) : Step :=
  fun s => f s arg

/-- ProcessSteps executes a series of functions and stops processing on error
(v7/main.go, lines 84-96). The `for ... range` loop is the recursion on the
list of steps. -/
def ProcessSteps (s : Shopper) : List Step → Shopper × Option GoError
  | [] => (s, none)
  | oneStep :: rest =>
    match oneStep s with
    | (s1, some err) => (s1, some err)
    | (s1, none) => ProcessSteps s1 rest

/-- The body of `main` in v7 from the call of `ProcessSteps` on, with the
three configured arguments as parameters. -/
def mainV7 (shopper : Shopper) (toStore eggs home : Int) : Shopper × Option GoError :=
  let driveToStore := Flavorize Drive toStore
  let buyEggs := Flavorize BuyEggs eggs
  let driveHome := Flavorize Drive home
  ProcessSteps shopper [driveToStore, buyEggs, driveHome]

/-! ## v5: `ErrCheckFunc` -/

/-- ErrCheckFunc creates a function that checks for an error before executing
another function (v5/main.go, lines 77-89). Its result is `(error, Shopper)`. -/
def ErrCheckFunc (f : Operation) : Option GoError → Shopper → Int → Option GoError × Shopper :=
  fun err s arg =>
    match err with
    | some e => (some e, s)
    | none =>
      let r := f s arg
      (r.2, r.1)

/-- The body of `main` in v5 from the first call of `drive` on. -/
def mainV5 (shopper : Shopper) (toStore eggs home : Int) : Option GoError × Shopper :=
  let drive := ErrCheckFunc Drive
  let buy := ErrCheckFunc BuyEggs
  let r1 := drive none shopper toStore
  let r2 := buy r1.1 r1.2 eggs
  drive r2.1 r2.2 home

/-! ## v3: methods with an error pre-check -/

namespace V3

/-- Method `Shopper.Drive` of v3 (v3/main.go, lines 44-58). -/
def Drive (s : Shopper) (fuelRequired : Int) (err : Option GoError) : Shopper × Option GoError :=
  match err with
  | some e => (s, some e)
  | none =>
    let s1 : Shopper := { s with Fuel := wrap (s.Fuel - fuelRequired) }
    if s1.Fuel < 0 then
      let err1 : GoError :=
        ⟨"ran out of gas " ++ fmtD (wrap (s1.Fuel * -1)) ++ " from destination"⟩
      ({ s1 with Fuel := 0 }, some err1)
    else
      (s1, none)

/-- Method `Shopper.BuyEggs` of v3 (v3/main.go, lines 60-81). -/
def BuyEggs (s : Shopper) (howMany : Int) (err : Option GoError) : Shopper × Option GoError :=
  match err with
  | some e => (s, some e)
  | none =>
    if howMany > EggsAvailableAtStore then
      (s, some ⟨"there are only " ++ fmtD EggsAvailableAtStore
        ++ " eggs available, but we need " ++ fmtD howMany⟩)
    else
      let totalCost : Int := wrap (howMany * CostPerEgg)
      if totalCost > s.Dollars then
        (s, some ⟨"only have " ++ fmtD s.Dollars ++ " dollars, but need "
          ++ fmtD totalCost ++ " to buy " ++ fmtD howMany ++ " eggs"⟩)
      else
        let s1 : Shopper := { s with Eggs := wrap (s.Eggs + howMany) }
        let s2 : Shopper := { s1 with Dollars := wrap (s1.Dollars - totalCost) }
        (s2, none)

end V3

/-- The body of `main` in v3 from the first call of `Drive` on. -/
def mainV3 (shopper : Shopper) (toStore eggs home : Int) : Shopper × Option GoError :=
  let r1 := V3.Drive shopper toStore none
  let r2 := V3.BuyEggs r1.1 eggs r1.2
  V3.Drive r2.1 home r2.2

/-! ## Vocabulary of the specification -/

/-- The steps of the list all succeed when applied in sequence from `s`, and
the state after the last one is `t`. -/
def succeedsTo : Shopper → List Step → Shopper → Prop
  | s, [], t => s = t
  | s, f :: fs, t => (f s).2 = none ∧ succeedsTo (f s).1 fs t

instance decSucceedsTo : (s : Shopper) → (fs : List Step) → (t : Shopper) →
    Decidable (succeedsTo s fs t)
  | s, [], t => inferInstanceAs (Decidable (s = t))
  | s, f :: fs, t =>
    @instDecidableAnd _ _ (inferInstanceAs (Decidable ((f s).2 = none)))
      (decSucceedsTo (f s).1 fs t)

/-- Sequential composition of the state parts of the steps: `fn (... (f1 s))`. -/
def applyAll (s : Shopper) : List Step → Shopper
  | [] => s
  | f :: fs => applyAll (f s).1 fs

/-- The failure `InsufficientFuel{shortfall}` of the specification, with the
message text that `Drive` gives it. -/
def InsufficientFuel (shortfall : Int) : GoError :=
  ⟨"ran out of gas " ++ fmtD shortfall ++ " from destination"⟩

/-- The failure `InsufficientSupply{available, requested}` of the
specification, with the message text that `BuyEggs` gives it. -/
def InsufficientSupply (available requested : Int) : GoError :=
  ⟨"there are only " ++ fmtD available ++ " eggs available, but we need " ++ fmtD requested⟩

/-- The failure `InsufficientFunds{available, required}` of the specification,
with the message text that `BuyEggs` gives it. -/
def InsufficientFunds (available required howMany : Int) : GoError :=
  ⟨"only have " ++ fmtD available ++ " dollars, but need " ++ fmtD required
    ++ " to buy " ++ fmtD howMany ++ " eggs"⟩

/-- All three counters of the shopper are non-negative (the invariant of the
specification's data model). -/
def Shopper.nonneg (s : Shopper) : Prop :=
  0 ≤ s.Fuel ∧ 0 ≤ s.Dollars ∧ 0 ≤ s.Eggs

instance (s : Shopper) : Decidable s.nonneg :=
  inferInstanceAs (Decidable (0 ≤ s.Fuel ∧ 0 ≤ s.Dollars ∧ 0 ≤ s.Eggs))

/-- The step is `Drive` or `BuyEggs` bound by `Flavorize` to a non-negative
Go `int`. -/
def boundNonneg (st : Step) : Prop :=
  ∃ m : Int, 0 ≤ m ∧ isInt m ∧ (st = Flavorize Drive m ∨ st = Flavorize BuyEggs m)

/-- Inductive invariant of a run from `NewShopper`: non-negative counters, a
representable fuel, and dollars plus eggs within the `int` range. -/
def Shopper.inRun (s : Shopper) : Prop :=
  0 ≤ s.Fuel ∧ s.Fuel ≤ maxInt ∧ 0 ≤ s.Dollars ∧ 0 ≤ s.Eggs ∧ s.Dollars + s.Eggs ≤ maxInt

instance (s : Shopper) : Decidable s.inRun :=
  inferInstanceAs (Decidable (0 ≤ s.Fuel ∧ s.Fuel ≤ maxInt ∧ 0 ≤ s.Dollars ∧ 0 ≤ s.Eggs ∧
    s.Dollars + s.Eggs ≤ maxInt))

/-- The value held by the shopper, in dollars: `Dollars + CostPerEgg * Eggs`,
as an exact integer. -/
def value (s : Shopper) : Int :=
  s.Dollars + CostPerEgg * s.Eggs

/-- The statements of `Drive` computed with exact unbounded integers: the
reference against which the absence of wrap-around is stated. -/
def DriveExact (s : Shopper) (fuelRequired : Int) : Shopper × Option GoError :=
  let s1 : Shopper := { s with Fuel := s.Fuel - fuelRequired }
  if s1.Fuel < 0 then
    let err : GoError :=
      ⟨"ran out of gas " ++ fmtD (s1.Fuel * -1) ++ " from destination"⟩
    ({ s1 with Fuel := 0 }, some err)
  else
    (s1, none)

/-- The statements of `BuyEggs` computed with exact unbounded integers. -/
def BuyEggsExact (s : Shopper) (howMany : Int) : Shopper × Option GoError :=
  if howMany > EggsAvailableAtStore then
    (s, some ⟨"there are only " ++ fmtD EggsAvailableAtStore
      ++ " eggs available, but we need " ++ fmtD howMany⟩)
  else
    let totalCost : Int := howMany * CostPerEgg
    if totalCost > s.Dollars then
      (s, some ⟨"only have " ++ fmtD s.Dollars ++ " dollars, but need "
        ++ fmtD totalCost ++ " to buy " ++ fmtD howMany ++ " eggs"⟩)
    else
      let s1 : Shopper := { s with Eggs := s.Eggs + howMany }
      let s2 : Shopper := { s1 with Dollars := s1.Dollars - totalCost }
      (s2, none)

/-- The step is `Drive` or `BuyEggs` bound by `Flavorize` to an integer
argument, of any sign. -/
def boundStep (st : Step) : Prop :=
  ∃ m : Int, st = Flavorize Drive m ∨ st = Flavorize BuyEggs m

/-- The money part of the run invariant: non-negative dollars and eggs whose
sum is within the `int` range; the fuel plays no part. -/
def Shopper.solvent (s : Shopper) : Prop :=
  0 ≤ s.Dollars ∧ 0 ≤ s.Eggs ∧ s.Dollars + s.Eggs ≤ maxInt

instance (s : Shopper) : Decidable s.solvent :=
  inferInstanceAs (Decidable (0 ≤ s.Dollars ∧ 0 ≤ s.Eggs ∧ s.Dollars + s.Eggs ≤ maxInt))

/-! ## Auxiliary lemmas -/

theorem wrap_of_isInt {x : Int} (h : isInt x) : wrap x = x := by
  unfold isInt minInt maxInt at h
  unfold wrap
  omega

theorem isInt_wrap (x : Int) : isInt (wrap x) := by
  unfold isInt minInt maxInt wrap
  omega

theorem processSteps_nil (s : Shopper) : ProcessSteps s [] = (s, none) := rfl

theorem processSteps_cons_none {s s1 : Shopper} {f : Step} (h : f s = (s1, none))
    (rest : List Step) : ProcessSteps s (f :: rest) = ProcessSteps s1 rest := by
  simp [ProcessSteps, h]

theorem processSteps_cons_some {s s1 : Shopper} {f : Step} {e : GoError}
    (h : f s = (s1, some e)) (rest : List Step) :
    ProcessSteps s (f :: rest) = (s1, some e) := by
  simp [ProcessSteps, h]

theorem processSteps_append_of_succeedsTo {s t : Shopper} {pre : List Step}
    (h : succeedsTo s pre t) (post : List Step) :
    ProcessSteps s (pre ++ post) = ProcessSteps t post := by
  induction pre generalizing s with
  | nil =>
    simp only [succeedsTo] at h
    subst h
    rfl
  | cons f fs ih =>
    obtain ⟨h1, h2⟩ := h
    have hf : f s = ((f s).1, none) := Prod.ext rfl h1
    rw [List.cons_append, processSteps_cons_none hf]
    exact ih h2

theorem drive_nonneg {s : Shopper} {n : Int} (hF : 0 ≤ s.Fuel) (hFm : s.Fuel ≤ maxInt)
    (hn0 : 0 ≤ n) (hn : n ≤ maxInt) :
    0 ≤ (Drive s n).1.Fuel ∧ (Drive s n).1.Fuel ≤ maxInt ∧
    (Drive s n).1.Dollars = s.Dollars ∧ (Drive s n).1.Eggs = s.Eggs := by
  have hw : wrap (s.Fuel - n) = s.Fuel - n := by
    apply wrap_of_isInt
    unfold isInt minInt maxInt at *
    omega
  simp only [Drive, hw]
  split_ifs with h
  · refine ⟨le_refl _, ?_, rfl, rfl⟩
    show (0 : Int) ≤ maxInt
    decide
  · exact ⟨by simpa using h, by show s.Fuel - n ≤ maxInt; omega, rfl, rfl⟩

theorem buyEggs_nonneg {s : Shopper} {n : Int} (hD : 0 ≤ s.Dollars) (hE : 0 ≤ s.Eggs)
    (hDm : s.Dollars ≤ maxInt) (hn0 : 0 ≤ n) (hn : n ≤ maxInt)
    (hroom : s.Eggs + n ≤ maxInt) :
    (BuyEggs s n).1.Fuel = s.Fuel ∧ 0 ≤ (BuyEggs s n).1.Dollars ∧
    0 ≤ (BuyEggs s n).1.Eggs ∧
    (BuyEggs s n).1.Dollars + (BuyEggs s n).1.Eggs = s.Dollars + s.Eggs := by
  have hc : wrap (n * CostPerEgg) = n := by
    have e : n * CostPerEgg = n := by simp [CostPerEgg]
    rw [e]
    apply wrap_of_isInt
    unfold isInt minInt maxInt at *
    omega
  have he : wrap (s.Eggs + n) = s.Eggs + n := by
    apply wrap_of_isInt
    unfold isInt minInt maxInt at *
    omega
  simp only [BuyEggs, hc, he]
  split_ifs with h1 h2
  · exact ⟨rfl, hD, hE, rfl⟩
  · exact ⟨rfl, hD, hE, rfl⟩
  · have hd : wrap (s.Dollars - n) = s.Dollars - n := by
      apply wrap_of_isInt
      unfold isInt minInt maxInt at *
      omega
    simp only [hd]
    exact ⟨trivial, by omega, by omega, by omega⟩

theorem step_inRun {s : Shopper} {st : Step} (hs : s.inRun) (hst : boundNonneg st) :
    (st s).1.inRun := by
  obtain ⟨hF, hFm, hD, hE, hsum⟩ := hs
  obtain ⟨m, hm0, hm, hst | hst⟩ := hst
  · subst hst
    obtain ⟨a, b, c, d⟩ := drive_nonneg (n := m) hF hFm hm0 hm.2
    simp only [Flavorize]
    exact ⟨a, b, by rw [c]; exact hD, by rw [d]; exact hE, by rw [c, d]; exact hsum⟩
  · subst hst
    by_cases hroom : s.Eggs + m ≤ maxInt
    · obtain ⟨a, b, c, d⟩ := buyEggs_nonneg (n := m) hD hE (by omega) hm0 hm.2 hroom
      simp only [Flavorize]
      refine ⟨by rw [a]; exact hF, by rw [a]; exact hFm, b, c, by rw [d]; exact hsum⟩
    · have hgt : wrap (m * CostPerEgg) > s.Dollars := by
        have e : m * CostPerEgg = m := by simp [CostPerEgg]
        rw [e, wrap_of_isInt hm]
        omega
      have hres : (BuyEggs s m).1 = s := by
        simp only [BuyEggs]
        split_ifs <;> rfl
      simp only [Flavorize, hres]
      exact ⟨hF, hFm, hD, hE, hsum⟩

theorem processSteps_inRun {s : Shopper} {steps : List Step} (hs : s.inRun)
    (hsteps : ∀ st ∈ steps, boundNonneg st) : (ProcessSteps s steps).1.inRun := by
  induction steps generalizing s with
  | nil => exact hs
  | cons f fs ih =>
    have hf : (f s).1.inRun := step_inRun hs (hsteps f (List.mem_cons_self f fs))
    have hrest : ∀ st ∈ fs, boundNonneg st := fun st h => hsteps st (List.mem_cons_of_mem f h)
    rcases hfe : f s with ⟨s1, _ | e⟩
    · rw [processSteps_cons_none hfe]
      rw [hfe] at hf
      exact ih hf hrest
    · rw [processSteps_cons_some hfe]
      rw [hfe] at hf
      exact hf

theorem v3_drive_nil (s : Shopper) (n : Int) : V3.Drive s n none = Drive s n := rfl

theorem v3_drive_err (s : Shopper) (n : Int) (e : GoError) :
    V3.Drive s n (some e) = (s, some e) := rfl

theorem v3_buyEggs_nil (s : Shopper) (n : Int) : V3.BuyEggs s n none = BuyEggs s n := rfl

theorem v3_buyEggs_err (s : Shopper) (n : Int) (e : GoError) :
    V3.BuyEggs s n (some e) = (s, some e) := rfl

theorem errCheckFunc_nil (f : Operation) (s : Shopper) (n : Int) :
    ErrCheckFunc f none s n = ((f s n).2, (f s n).1) := rfl

theorem errCheckFunc_err (f : Operation) (e : GoError) (s : Shopper) (n : Int) :
    ErrCheckFunc f (some e) s n = (some e, s) := rfl

theorem drive_frame (s : Shopper) (n : Int) :
    (Drive s n).1.Dollars = s.Dollars ∧ (Drive s n).1.Eggs = s.Eggs := by
  simp only [Drive]
  split_ifs <;> exact ⟨rfl, rfl⟩

theorem buyEggs_frame (s : Shopper) (n : Int) : (BuyEggs s n).1.Fuel = s.Fuel := by
  simp only [BuyEggs]
  split_ifs <;> rfl

theorem buyEggs_fail_state {s : Shopper} {n : Int} (h : (BuyEggs s n).2 ≠ none) :
    (BuyEggs s n).1 = s := by
  simp only [BuyEggs] at h ⊢
  split_ifs at h ⊢
  · rfl
  · rfl
  · exact absurd rfl h

theorem step_value {s : Shopper} {st : Step} (hs : s.inRun) (hst : boundNonneg st) :
    value (st s).1 = value s := by
  obtain ⟨hF, hFm, hD, hE, hsum⟩ := hs
  obtain ⟨m, hm0, hm, hst | hst⟩ := hst
  · subst hst
    obtain ⟨c, d⟩ := drive_frame s m
    simp only [Flavorize, value, c, d]
  · subst hst
    by_cases hfail : (BuyEggs s m).2 = none
    · have hroom : s.Eggs + m ≤ maxInt := by
        by_contra hcon
        have hgt : wrap (m * CostPerEgg) > s.Dollars := by
          have e : m * CostPerEgg = m := by simp [CostPerEgg]
          rw [e, wrap_of_isInt hm]
          omega
        simp only [BuyEggs] at hfail
        split_ifs at hfail
      obtain ⟨_, _, _, d⟩ := buyEggs_nonneg (n := m) hD hE (by omega) hm0 hm.2 hroom
      simp only [Flavorize, value, CostPerEgg, one_mul]
      exact d
    · simp only [Flavorize, buyEggs_fail_state hfail]

theorem processSteps_value {s : Shopper} {steps : List Step} (hs : s.inRun)
    (hsteps : ∀ st ∈ steps, boundNonneg st) :
    value (ProcessSteps s steps).1 = value s := by
  induction steps generalizing s with
  | nil => rfl
  | cons f fs ih =>
    have hb := hsteps f (List.mem_cons_self f fs)
    have hf : (f s).1.inRun := step_inRun hs hb
    have hv : value (f s).1 = value s := step_value hs hb
    have hrest : ∀ st ∈ fs, boundNonneg st := fun st h => hsteps st (List.mem_cons_of_mem f h)
    rcases hfe : f s with ⟨s1, _ | e⟩
    · rw [processSteps_cons_none hfe]
      rw [hfe] at hf hv
      exact (ih hf hrest).trans hv
    · rw [processSteps_cons_some hfe]
      rw [hfe] at hv
      exact hv

theorem drive_of_le {s : Shopper} {n : Int} (h : n ≤ s.Fuel) (hr : s.Fuel - n ≤ maxInt) :
    Drive s n = ({ s with Fuel := s.Fuel - n }, none) := by
  have hw : wrap (s.Fuel - n) = s.Fuel - n := by
    apply wrap_of_isInt
    unfold isInt minInt maxInt at *
    omega
  have hnn : ¬ (s.Fuel - n < 0) := by omega
  simp only [Drive, hw, hnn, if_false]

theorem drive_of_lt {s : Shopper} {n : Int} (h : s.Fuel < n) (hr : minInt ≤ s.Fuel - n) :
    (Drive s n).1 = { s with Fuel := 0 } ∧ (Drive s n).2 ≠ none := by
  have hw : wrap (s.Fuel - n) = s.Fuel - n := by
    apply wrap_of_isInt
    unfold isInt minInt maxInt at *
    omega
  have hneg : s.Fuel - n < 0 := by omega
  simp only [Drive, hw, hneg, if_true]
  exact ⟨trivial, by simp⟩

theorem eq_of_wrap_eq {x y : Int} (hx : isInt x) (hy : isInt y) (h : wrap x = wrap y) :
    x = y := by
  rw [wrap_of_isInt hx, wrap_of_isInt hy] at h
  exact h

theorem buyEggs_success_eggs {s : Shopper} {n : Int} (h : (BuyEggs s n).2 = none) :
    (BuyEggs s n).1.Eggs = wrap (s.Eggs + n) ∧ n ≤ EggsAvailableAtStore ∧
    wrap (n * CostPerEgg) ≤ s.Dollars := by
  simp only [BuyEggs] at h ⊢
  split_ifs at h ⊢ with h1 h2
  exact ⟨rfl, not_lt.mp h1, not_lt.mp h2⟩

theorem buyEggs_value_mod (s : Shopper) (n : Int) :
    wrap (value (BuyEggs s n).1) = wrap (value s) := by
  simp only [BuyEggs, value, CostPerEgg, one_mul, mul_one]
  split_ifs
  · rfl
  · rfl
  · show wrap (wrap (s.Dollars - wrap n) + wrap (s.Eggs + n)) = wrap (s.Dollars + s.Eggs)
    unfold wrap
    omega

theorem drive_value (s : Shopper) (n : Int) : value (Drive s n).1 = value s := by
  obtain ⟨c, e⟩ := drive_frame s n
  simp only [value, c, e]

theorem step_value_mod {s : Shopper} {st : Step} (hst : boundStep st) :
    wrap (value (st s).1) = wrap (value s) := by
  obtain ⟨m, hst | hst⟩ := hst
  · subst hst
    simp only [Flavorize, drive_value]
  · subst hst
    exact buyEggs_value_mod s m

theorem processSteps_value_mod {s : Shopper} {steps : List Step}
    (hsteps : ∀ st ∈ steps, boundStep st) :
    wrap (value (ProcessSteps s steps).1) = wrap (value s) := by
  induction steps generalizing s with
  | nil => rfl
  | cons f fs ih =>
    have hv : wrap (value (f s).1) = wrap (value s) :=
      step_value_mod (hsteps f (List.mem_cons_self f fs))
    have hrest : ∀ st ∈ fs, boundStep st := fun st h => hsteps st (List.mem_cons_of_mem f h)
    rcases hfe : f s with ⟨s1, _ | e⟩
    · rw [processSteps_cons_none hfe]
      rw [hfe] at hv
      exact (ih hrest).trans hv
    · rw [processSteps_cons_some hfe]
      rw [hfe] at hv
      exact hv

theorem step_solvent {s : Shopper} {st : Step} (hs : s.solvent) (hst : boundNonneg st) :
    (st s).1.solvent ∧ value (st s).1 = value s := by
  obtain ⟨hD, hE, hsum⟩ := hs
  obtain ⟨m, hm0, hm, hst | hst⟩ := hst
  · subst hst
    obtain ⟨c, d⟩ := drive_frame s m
    simp only [Flavorize]
    exact ⟨⟨by rw [c]; exact hD, by rw [d]; exact hE, by rw [c, d]; exact hsum⟩,
      drive_value s m⟩
  · subst hst
    simp only [Flavorize]
    by_cases hfail : (BuyEggs s m).2 = none
    · obtain ⟨_, _, hcost⟩ := buyEggs_success_eggs hfail
      have e : m * CostPerEgg = m := by simp [CostPerEgg]
      rw [e, wrap_of_isInt hm] at hcost
      have hroom : s.Eggs + m ≤ maxInt := by omega
      obtain ⟨_, b, c, d⟩ := buyEggs_nonneg (n := m) hD hE (by omega) hm0 hm.2 hroom
      refine ⟨⟨b, c, by rw [d]; exact hsum⟩, ?_⟩
      simp only [value, CostPerEgg, one_mul]
      exact d
    · rw [buyEggs_fail_state hfail]
      exact ⟨⟨hD, hE, hsum⟩, rfl⟩

theorem processSteps_solvent {s : Shopper} {steps : List Step} (hs : s.solvent)
    (hsteps : ∀ st ∈ steps, boundNonneg st) :
    (ProcessSteps s steps).1.solvent ∧ value (ProcessSteps s steps).1 = value s := by
  induction steps generalizing s with
  | nil => exact ⟨hs, rfl⟩
  | cons f fs ih =>
    obtain ⟨hf, hv⟩ := step_solvent hs (hsteps f (List.mem_cons_self f fs))
    have hrest : ∀ st ∈ fs, boundNonneg st := fun st h => hsteps st (List.mem_cons_of_mem f h)
    rcases hfe : f s with ⟨s1, _ | e⟩
    · rw [processSteps_cons_none hfe]
      rw [hfe] at hf hv
      obtain ⟨a, b⟩ := ih hf hrest
      exact ⟨a, b.trans hv⟩
    · rw [processSteps_cons_some hfe]
      rw [hfe] at hf hv
      exact ⟨hf, hv⟩

/-! ## Claims -/

/-- C1. Short-circuit of the v7 processor: when the steps of `pre` succeed in
sequence from `s` and reach `sk`, and the next step `f` fails on `sk` with
state `s1` and error `err`, then `ProcessSteps` returns exactly `(s1, err)`
whatever steps follow `f`; replacing or dropping the later steps leaves the
result unchanged. -/
theorem C1_short_circuit (s sk s1 : Shopper) (pre : List Step) (f : Step) (err : GoError)
    (hpre : succeedsTo s pre sk) (hf : f sk = (s1, some err)) :
    (∀ post : List Step, ProcessSteps s (pre ++ f :: post) = (s1, some err)) ∧
    (∀ post post2 : List Step,
      ProcessSteps s (pre ++ f :: post) = ProcessSteps s (pre ++ f :: post2)) ∧
    ProcessSteps s (pre ++ [f]) = (s1, some err) := by
  have key : ∀ post : List Step, ProcessSteps s (pre ++ f :: post) = (s1, some err) := by
    intro post
    rw [processSteps_append_of_succeedsTo hpre, processSteps_cons_some hf]
  exact ⟨key, fun post post2 => by rw [key post, key post2], key []⟩

/-- Witness of C1: after a successful drive, buying 25 eggs fails; the drive
home that follows does not change the result. -/
theorem C1_short_circuit_witness :
    ProcessSteps (NewShopper 15 10)
      ([Flavorize Drive 5] ++ Flavorize BuyEggs 25 :: [Flavorize Drive 4])
      = (⟨10, 10, 0⟩, some ⟨"there are only 24 eggs available, but we need 25"⟩) :=
  (C1_short_circuit (NewShopper 15 10) ⟨10, 10, 0⟩ ⟨10, 10, 0⟩ [Flavorize Drive 5]
    (Flavorize BuyEggs 25) ⟨"there are only 24 eggs available, but we need 25"⟩
    (by decide) (by decide)).1 [Flavorize Drive 4]

/-- C2. All-success case of the v7 processor: when every step of the list
succeeds on the state produced by the one before it (the first on `s`),
reaching `t`, then `ProcessSteps` returns `t`, which is the composition of the
steps applied to `s`, with a nil error; on the empty list it returns `(s, nil)`. -/
theorem C2_all_success (s t : Shopper) (steps : List Step) (h : succeedsTo s steps t) :
    ProcessSteps s steps = (t, none) ∧ t = applyAll s steps ∧
    ProcessSteps s [] = (s, none) := by
  refine ⟨?_, ?_, rfl⟩
  · have := processSteps_append_of_succeedsTo h []
    simpa using this
  · induction steps generalizing s with
    | nil => exact h.symm
    | cons f fs ih => exact ih _ h.2

/-- Witness of C2: the three configured steps all succeed from the configured
shopper. -/
theorem C2_all_success_witness :
    ProcessSteps (NewShopper 15 10) [Flavorize Drive 5, Flavorize BuyEggs 6, Flavorize Drive 4]
      = (⟨6, 4, 6⟩, none) :=
  (C2_all_success (NewShopper 15 10) ⟨6, 4, 6⟩
    [Flavorize Drive 5, Flavorize BuyEggs 6, Flavorize Drive 4] (by decide)).1

/-- C3. Drive success: for a shopper whose fuel is a Go `int` and a distance
cost with `0 <= distanceCost <= s.Fuel`, `Drive` returns a nil error and a
state whose fuel is `s.Fuel - distanceCost`, which is non-negative; dollars
and eggs are untouched. -/
theorem C3_drive_success (s : Shopper) (distanceCost : Int) (hs : isInt s.Fuel)
    (h0 : 0 ≤ distanceCost) (h1 : distanceCost ≤ s.Fuel) :
    (Drive s distanceCost).2 = none ∧
    (Drive s distanceCost).1.Fuel = s.Fuel - distanceCost ∧
    0 ≤ (Drive s distanceCost).1.Fuel ∧
    Drive s distanceCost = ({ s with Fuel := s.Fuel - distanceCost }, none) := by
  have hw : wrap (s.Fuel - distanceCost) = s.Fuel - distanceCost := by
    apply wrap_of_isInt
    unfold isInt minInt maxInt at *
    omega
  have hnn : ¬ (s.Fuel - distanceCost < 0) := by omega
  simp only [Drive, hw, hnn, if_false]
  exact ⟨trivial, trivial, by omega, trivial⟩

/-- Witness of C3: the configured drive to the store. -/
theorem C3_drive_success_witness :
    (Drive ⟨15, 10, 0⟩ 5).2 = none ∧ (Drive ⟨15, 10, 0⟩ 5).1.Fuel = 15 - 5 ∧
    0 ≤ (Drive ⟨15, 10, 0⟩ 5).1.Fuel ∧
    Drive ⟨15, 10, 0⟩ 5 = (⟨15 - 5, 10, 0⟩, none) :=
  C3_drive_success ⟨15, 10, 0⟩ 5 (by decide) (by decide) (by decide)

/-- C4, as stated, fails: a shopper with the smallest `int` as fuel asked to
drive a distance of 1 has less fuel than the distance, yet the subtraction
wraps around and `Drive` returns a nil error with the largest `int` as fuel. -/
theorem C4_drive_failure_counterexample :
    Shopper.valid ⟨-9223372036854775808, 0, 0⟩ ∧ isInt 1 ∧
    (⟨-9223372036854775808, 0, 0⟩ : Shopper).Fuel < 1 ∧
    Drive ⟨-9223372036854775808, 0, 0⟩ 1 = (⟨9223372036854775807, 0, 0⟩, none) := by
  decide

/-- C4, amended. Drive failure clamp: for every shopper and every distance
cost with `s.Fuel < distanceCost` whose shortfall `distanceCost - s.Fuel` is
at most the largest `int` (always so when `s.Fuel >= 0`), `Drive` returns the
state with fuel 0 and the other fields untouched, and the error "ran out of
gas N from destination" with `N = distanceCost - s.Fuel`, a positive number. -/
theorem C4_drive_failure (s : Shopper) (distanceCost : Int) (hlt : s.Fuel < distanceCost)
    (hrep : distanceCost - s.Fuel ≤ maxInt) :
    (Drive s distanceCost).2 ≠ none ∧
    (Drive s distanceCost).1.Fuel = 0 ∧
    (Drive s distanceCost).2 = some (InsufficientFuel (distanceCost - s.Fuel)) ∧
    (InsufficientFuel (distanceCost - s.Fuel)).msg
      = "ran out of gas " ++ fmtD (distanceCost - s.Fuel) ++ " from destination" ∧
    0 < distanceCost - s.Fuel ∧
    (Drive s distanceCost).1 = { s with Fuel := 0 } := by
  have hw : wrap (s.Fuel - distanceCost) = s.Fuel - distanceCost := by
    apply wrap_of_isInt
    unfold isInt minInt maxInt at *
    omega
  have hw2 : wrap ((s.Fuel - distanceCost) * -1) = distanceCost - s.Fuel := by
    have e : (s.Fuel - distanceCost) * -1 = distanceCost - s.Fuel := by ring
    rw [e]
    apply wrap_of_isInt
    unfold isInt minInt maxInt at *
    omega
  have hneg : s.Fuel - distanceCost < 0 := by omega
  simp only [Drive, hw, hw2, hneg, if_true, InsufficientFuel]
  exact ⟨by simp, trivial, trivial, trivial, by omega, trivial⟩

/-- Witness of C4: one unit of fuel, a distance of 5. -/
theorem C4_drive_failure_witness :
    (Drive ⟨1, 10, 0⟩ 5).2 ≠ none ∧
    (Drive ⟨1, 10, 0⟩ 5).1.Fuel = 0 ∧
    (Drive ⟨1, 10, 0⟩ 5).2 = some (InsufficientFuel (5 - 1)) ∧
    (InsufficientFuel (5 - 1)).msg = "ran out of gas " ++ fmtD (5 - 1) ++ " from destination" ∧
    (0 : Int) < 5 - 1 ∧
    (Drive ⟨1, 10, 0⟩ 5).1 = ⟨0, 10, 0⟩ :=
  C4_drive_failure ⟨1, 10, 0⟩ 5 (by decide) (by decide)

/-- C5, as stated, fails: a shopper holding the largest `int` of eggs and one
dollar can buy one egg (1 <= 24 and 1 * CostPerEgg <= 1), and the egg count
wraps around to the smallest `int` instead of being `s.Eggs + 1`. -/
theorem C5_buy_success_counterexample :
    Shopper.valid ⟨0, 1, 9223372036854775807⟩ ∧ isInt 1 ∧
    (1 : Int) ≤ EggsAvailableAtStore ∧
    1 * CostPerEgg ≤ (⟨0, 1, 9223372036854775807⟩ : Shopper).Dollars ∧
    BuyEggs ⟨0, 1, 9223372036854775807⟩ 1 = (⟨0, 0, -9223372036854775808⟩, none) ∧
    (BuyEggs ⟨0, 1, 9223372036854775807⟩ 1).1.Eggs ≠ 9223372036854775807 + 1 := by
  decide

/-- C5, amended. Successful purchase: for every shopper and every quantity (a
Go `int`) with `quantity <= EggsAvailableAtStore` and
`quantity * CostPerEgg <= s.Dollars`, `BuyEggs` returns a nil error, leaves
the fuel alone, and sets eggs and dollars to `s.Eggs + quantity` and
`s.Dollars - quantity * CostPerEgg` reduced to 64 bits, which are these exact
values whenever they are representable as `int`. -/
theorem C5_buy_success (s : Shopper) (quantity : Int) (hq : isInt quantity)
    (h1 : quantity ≤ EggsAvailableAtStore) (h2 : quantity * CostPerEgg ≤ s.Dollars) :
    (BuyEggs s quantity).2 = none ∧
    (BuyEggs s quantity).1.Fuel = s.Fuel ∧
    (BuyEggs s quantity).1.Eggs = wrap (s.Eggs + quantity) ∧
    (BuyEggs s quantity).1.Dollars = wrap (s.Dollars - quantity * CostPerEgg) ∧
    (isInt (s.Eggs + quantity) → (BuyEggs s quantity).1.Eggs = s.Eggs + quantity) ∧
    (isInt (s.Dollars - quantity * CostPerEgg) →
      (BuyEggs s quantity).1.Dollars = s.Dollars - quantity * CostPerEgg) := by
  have hc : wrap (quantity * CostPerEgg) = quantity * CostPerEgg := by
    apply wrap_of_isInt
    simpa [CostPerEgg] using hq
  have hle : ¬ (quantity > EggsAvailableAtStore) := not_lt.mpr h1
  have hle2 : ¬ (quantity * CostPerEgg > s.Dollars) := not_lt.mpr h2
  simp only [BuyEggs, hc, hle, hle2, if_false]
  exact ⟨trivial, trivial, trivial, trivial, fun h => wrap_of_isInt h, fun h => wrap_of_isInt h⟩

/-- Witness of C5: the purchase of the specification, 6 eggs with 10 dollars. -/
theorem C5_buy_success_witness :
    BuyEggs ⟨10, 10, 0⟩ 6 = (⟨10, 4, 6⟩, none) ∧
    (BuyEggs ⟨10, 10, 0⟩ 6).1.Eggs = 0 + 6 ∧
    (BuyEggs ⟨10, 10, 0⟩ 6).1.Dollars = 10 - 6 * CostPerEgg :=
  have h := C5_buy_success ⟨10, 10, 0⟩ 6 (by decide) (by decide) (by decide)
  ⟨by decide, h.2.2.2.2.1 (by decide), h.2.2.2.2.2 (by decide)⟩

/-- C6. Purchase supply bound: for every shopper and every quantity above
`EggsAvailableAtStore` (24), `BuyEggs` returns the shopper unchanged and the
insufficient-supply error, whose message is "there are only 24 eggs
available, but we need " followed by the quantity. -/
theorem C6_supply_bound (s : Shopper) (quantity : Int) (h : quantity > EggsAvailableAtStore) :
    BuyEggs s quantity = (s, some (InsufficientSupply EggsAvailableAtStore quantity)) ∧
    (InsufficientSupply EggsAvailableAtStore quantity).msg
      = "there are only 24 eggs available, but we need " ++ fmtD quantity := by
  constructor
  · simp only [BuyEggs, h, if_true, InsufficientSupply]
  · have e : "there are only " ++ fmtD EggsAvailableAtStore ++ " eggs available, but we need "
        = "there are only 24 eggs available, but we need " := by decide
    simp only [InsufficientSupply]
    rw [e]

/-- Witness of C6: a request for 25 eggs. -/
theorem C6_supply_bound_witness :
    BuyEggs ⟨10, 10, 0⟩ 25 = (⟨10, 10, 0⟩, some (InsufficientSupply EggsAvailableAtStore 25)) ∧
    (InsufficientSupply EggsAvailableAtStore 25).msg
      = "there are only 24 eggs available, but we need " ++ fmtD 25 :=
  C6_supply_bound ⟨10, 10, 0⟩ 25 (by decide)

/-- C7, as stated, fails: with 3 dollars and a request for 25 eggs the cost
exceeds the funds, but `BuyEggs` reports the insufficient-supply error, which
is not the insufficient-funds one. -/
theorem C7_funds_bound_counterexample :
    25 * CostPerEgg > (⟨0, 3, 0⟩ : Shopper).Dollars ∧
    BuyEggs ⟨0, 3, 0⟩ 25
      = (⟨0, 3, 0⟩, some ⟨"there are only 24 eggs available, but we need 25"⟩) ∧
    (BuyEggs ⟨0, 3, 0⟩ 25).2 ≠ some (InsufficientFunds 3 (25 * CostPerEgg) 25) ∧
    (InsufficientFunds 3 (25 * CostPerEgg) 25).msg
      = "only have 3 dollars, but need 25 to buy 25 eggs" := by
  decide

/-- C7, amended. Purchase funds bound: for every shopper and every quantity
(a Go `int`) with `quantity * CostPerEgg > s.Dollars`, `BuyEggs` fails and
returns the shopper unchanged; the failure is the insufficient-funds error
when `quantity <= EggsAvailableAtStore` and the insufficient-supply error
otherwise. -/
theorem C7_funds_bound (s : Shopper) (quantity : Int) (hq : isInt quantity)
    (h : quantity * CostPerEgg > s.Dollars) :
    (BuyEggs s quantity).1 = s ∧
    (BuyEggs s quantity).2 ≠ none ∧
    (quantity ≤ EggsAvailableAtStore →
      (BuyEggs s quantity).2
        = some (InsufficientFunds s.Dollars (quantity * CostPerEgg) quantity)) ∧
    (quantity > EggsAvailableAtStore →
      (BuyEggs s quantity).2 = some (InsufficientSupply EggsAvailableAtStore quantity)) := by
  have hc : wrap (quantity * CostPerEgg) = quantity * CostPerEgg := by
    apply wrap_of_isInt
    simpa [CostPerEgg] using hq
  by_cases hsup : quantity > EggsAvailableAtStore
  · simp only [BuyEggs, hsup, if_true, InsufficientSupply]
    exact ⟨trivial, by simp, fun hle => absurd hsup (not_lt.mpr hle), fun _ => trivial⟩
  · simp only [BuyEggs, hsup, hc, h, if_true, if_false, InsufficientFunds]
    exact ⟨trivial, by simp, fun _ => trivial, fun hgt => False.elim hgt⟩

/-- Witness of C7: 3 dollars, 6 eggs wanted, one dollar per egg. -/
theorem C7_funds_bound_witness :
    BuyEggs ⟨10, 3, 0⟩ 6
      = (⟨10, 3, 0⟩, some ⟨"only have 3 dollars, but need 6 to buy 6 eggs"⟩) ∧
    (BuyEggs ⟨10, 3, 0⟩ 6).2 = some (InsufficientFunds 3 (6 * CostPerEgg) 6) :=
  ⟨by decide,
    (C7_funds_bound ⟨10, 3, 0⟩ 6 (by decide) (by decide)).2.2.1 (by decide)⟩

/-- C8, as stated, fails: a shopper with non-negative counters holding the
largest `int` of eggs buys 6 eggs with a non-negative argument, and the egg
count of the returned state is negative. -/
theorem C8_nonneg_counterexample :
    Shopper.valid ⟨15, 10, 9223372036854775807⟩ ∧
    Shopper.nonneg ⟨15, 10, 9223372036854775807⟩ ∧ (0 : Int) ≤ 6 ∧ isInt 6 ∧
    BuyEggs ⟨15, 10, 9223372036854775807⟩ 6 = (⟨15, 4, -9223372036854775803⟩, none) ∧
    ¬ Shopper.nonneg (BuyEggs ⟨15, 10, 9223372036854775807⟩ 6).1 := by
  decide

/-- C8, amended. Non-negativity invariant: for a shopper with non-negative
`int` counters and a non-negative `int` argument, the state returned by
`Drive` has non-negative counters; the state returned by `BuyEggs` has
non-negative counters whenever the purchase fails, and when it succeeds exactly
when `s.Eggs + n` does not exceed the largest `int`; every state returned by
`ProcessSteps` from `NewShopper f d` with non-negative `f`, `d` over steps
bound from `Drive`/`BuyEggs` to non-negative arguments has non-negative
counters. -/
theorem C8_nonneg (s : Shopper) (n f d : Int) (steps : List Step)
    (hs : s.valid) (hpos : s.nonneg) (hn : isInt n) (hn0 : 0 ≤ n)
    (hf : isInt f) (hf0 : 0 ≤ f) (hd : isInt d) (hd0 : 0 ≤ d)
    (hsteps : ∀ st ∈ steps, boundNonneg st) :
    (Drive s n).1.nonneg ∧
    ((BuyEggs s n).1.nonneg ↔ ((BuyEggs s n).2 = none → s.Eggs + n ≤ maxInt)) ∧
    ((BuyEggs s n).2 ≠ none → (BuyEggs s n).1.nonneg) ∧
    (ProcessSteps (NewShopper f d) steps).1.nonneg := by
  obtain ⟨hF, hD, hE⟩ := hpos
  have hfailed : (BuyEggs s n).2 ≠ none → (BuyEggs s n).1.nonneg := by
    intro hfail
    rw [buyEggs_fail_state hfail]
    exact ⟨hF, hD, hE⟩
  refine ⟨?_, ⟨?_, ?_⟩, hfailed, ?_⟩
  · obtain ⟨a, _, c, e⟩ := drive_nonneg (n := n) hF hs.1.2 hn0 hn.2
    exact ⟨a, by rw [c]; exact hD, by rw [e]; exact hE⟩
  · intro hnn hsucc
    obtain ⟨he, _, _⟩ := buyEggs_success_eggs hsucc
    have h0 : 0 ≤ wrap (s.Eggs + n) := by
      rw [← he]
      exact hnn.2.2
    have hEm : s.Eggs ≤ maxInt := hs.2.2.2
    have hnm : n ≤ maxInt := hn.2
    unfold wrap at h0
    unfold maxInt at *
    omega
  · intro hguard
    by_cases hsucc : (BuyEggs s n).2 = none
    · obtain ⟨a, b, c, _⟩ := buyEggs_nonneg (n := n) hD hE hs.2.1.2 hn0 hn.2 (hguard hsucc)
      exact ⟨by rw [a]; exact hF, b, c⟩
    · exact hfailed hsucc
  · have h0 : (NewShopper f d).inRun := by
      refine ⟨hf0, hf.2, hd0, le_refl _, ?_⟩
      show d + 0 ≤ maxInt
      have := hd.2
      omega
    obtain ⟨a, _, b, c, _⟩ := processSteps_inRun h0 hsteps
    exact ⟨a, b, c⟩

/-- Witness of C8: the configured shopper and steps, and a failing purchase by
a shopper holding the largest `int` of eggs. -/
theorem C8_nonneg_witness :
    (Drive ⟨15, 10, 0⟩ 6).1.nonneg ∧ (BuyEggs ⟨15, 10, 0⟩ 6).1.nonneg ∧
    (ProcessSteps (NewShopper 15 10)
      [Flavorize Drive 5, Flavorize BuyEggs 6, Flavorize Drive 4]).1.nonneg ∧
    (BuyEggs ⟨0, 0, 9223372036854775807⟩ 5).1.nonneg :=
  have hsteps : ∀ st ∈ [Flavorize Drive 5, Flavorize BuyEggs 6, Flavorize Drive 4],
      boundNonneg st := by
    intro st hst
    simp only [List.mem_cons, List.mem_singleton, List.not_mem_nil, or_false] at hst
    rcases hst with h | h | h
    · exact ⟨5, by decide, by decide, Or.inl h⟩
    · exact ⟨6, by decide, by decide, Or.inr h⟩
    · exact ⟨4, by decide, by decide, Or.inl h⟩
  have h := C8_nonneg ⟨15, 10, 0⟩ 6 15 10
    [Flavorize Drive 5, Flavorize BuyEggs 6, Flavorize Drive 4]
    (by decide) (by decide) (by decide) (by decide) (by decide) (by decide) (by decide)
    (by decide) hsteps
  have h2 := C8_nonneg ⟨0, 0, 9223372036854775807⟩ 5 15 10
    [Flavorize Drive 5, Flavorize BuyEggs 6, Flavorize Drive 4]
    (by decide) (by decide) (by decide) (by decide) (by decide) (by decide) (by decide)
    (by decide) hsteps
  ⟨h.1, h.2.1.mpr (fun _ => by decide), h.2.2.2, h2.2.2.1 (by decide)⟩

/-- C9. End-to-end scenario with the default constants: `ProcessSteps` on
`NewShopper 15 10` with the steps drive 5, buy 6 eggs, drive 4 returns the
state with fuel 6, dollars 4, eggs 6 and a nil error; these are the values
that `main` of v7 passes. -/
theorem C9_end_to_end :
    ProcessSteps (NewShopper 15 10)
      [Flavorize Drive 5, Flavorize BuyEggs 6, Flavorize Drive 4]
      = ({ Fuel := 6, Dollars := 4, Eggs := 6 }, none) ∧
    mainV7 (NewShopper FuelInCar DollarsInWallet)
      FuelNeededToGetToStore EggsRequired FuelNeededToGetHome
      = ({ Fuel := 6, Dollars := 4, Eggs := 6 }, none) := by
  decide

/-- C10. The three versions are behaviourally identical: for every initial
shopper and all integers `a`, `b`, `c`, the v3 chain of pre-checking methods,
the v5 chain of `ErrCheckFunc` wrappers and the v7 call of `ProcessSteps` on
the three bound steps produce the same final shopper and the same error (v5
returns the pair in the order error, shopper). -/
theorem C10_versions_agree (s : Shopper) (a b c : Int) :
    mainV3 s a b c = mainV7 s a b c ∧
    mainV5 s a b c = ((mainV7 s a b c).2, (mainV7 s a b c).1) ∧
    mainV7 s a b c
      = ProcessSteps s [Flavorize Drive a, Flavorize BuyEggs b, Flavorize Drive c] := by
  refine ⟨?_, ?_, rfl⟩
  · simp only [mainV3, mainV7, v3_drive_nil]
    have h1 : Flavorize Drive a s = Drive s a := rfl
    rcases hd : Drive s a with ⟨s1, _ | e1⟩
    · rw [processSteps_cons_none (h1.trans hd)]
      simp only [v3_buyEggs_nil]
      have h2 : Flavorize BuyEggs b s1 = BuyEggs s1 b := rfl
      rcases hb : BuyEggs s1 b with ⟨s2, _ | e2⟩
      · rw [processSteps_cons_none (h2.trans hb)]
        simp only [v3_drive_nil]
        have h3 : Flavorize Drive c s2 = Drive s2 c := rfl
        rcases hc : Drive s2 c with ⟨s3, _ | e3⟩
        · rw [processSteps_cons_none (h3.trans hc)]
          rfl
        · rw [processSteps_cons_some (h3.trans hc)]
      · rw [processSteps_cons_some (h2.trans hb)]
        rfl
    · rw [processSteps_cons_some (h1.trans hd)]
      rfl
  · simp only [mainV5, mainV7, errCheckFunc_nil]
    have h1 : Flavorize Drive a s = Drive s a := rfl
    rcases hd : Drive s a with ⟨s1, _ | e1⟩
    · rw [processSteps_cons_none (h1.trans hd)]
      simp only [errCheckFunc_nil]
      have h2 : Flavorize BuyEggs b s1 = BuyEggs s1 b := rfl
      rcases hb : BuyEggs s1 b with ⟨s2, _ | e2⟩
      · rw [processSteps_cons_none (h2.trans hb)]
        simp only [errCheckFunc_nil]
        have h3 : Flavorize Drive c s2 = Drive s2 c := rfl
        rcases hc : Drive s2 c with ⟨s3, _ | e3⟩
        · rw [processSteps_cons_none (h3.trans hc)]
          rfl
        · rw [processSteps_cons_some (h3.trans hc)]
      · rw [processSteps_cons_some (h2.trans hb)]
        rfl
    · rw [processSteps_cons_some (h1.trans hd)]
      rfl

/-- C11. Binding is pure partial application: for every operation `f`, integer
`arg` and shopper `s`, `Flavorize f arg s` is `f s arg`; two closures obtained
from separate calls of `Flavorize f arg`, and repeated invocations of either
on the same state, give the same (state, error) outcome. -/
theorem C11_flavorize (f : Operation) (arg : Int) (s : Shopper) :
    Flavorize f arg s = f s arg ∧
    (let c1 : Step := Flavorize f arg
     let c2 : Step := Flavorize f arg
     c1 s = c2 s ∧ [c1 s, c1 s, c2 s, c2 s] = [f s arg, f s arg, f s arg, f s arg]) :=
  ⟨rfl, rfl, rfl⟩

/-- C12, as stated, fails: from `NewShopper 6 10` the drive of 5 and the
purchase of 6 eggs succeed and reach fuel 1, dollars 4, eggs 6; the drive of 4
then fails, and `ProcessSteps` returns the state of the failing step, with
fuel 0, not the last successfully reached state. -/
theorem C12_failure_state_counterexample :
    succeedsTo (NewShopper 6 10) [Flavorize Drive 5, Flavorize BuyEggs 6] ⟨1, 4, 6⟩ ∧
    (Flavorize Drive 4 ⟨1, 4, 6⟩).2 ≠ none ∧
    ProcessSteps (NewShopper 6 10)
      [Flavorize Drive 5, Flavorize BuyEggs 6, Flavorize Drive 4]
      = (⟨0, 4, 6⟩, some ⟨"ran out of gas 3 from destination"⟩) ∧
    (ProcessSteps (NewShopper 6 10)
      [Flavorize Drive 5, Flavorize BuyEggs 6, Flavorize Drive 4]).1 ≠ ⟨1, 4, 6⟩ := by
  decide

/-- C12, amended. Step-runner result state: when the steps of `pre` succeed in
sequence from `s` and reach `sk`, and the next step `f` fails on `sk` with
state `s1` and error `err`, `ProcessSteps` returns the state `s1` produced by
the failing step together with `err`; this is the last successfully reached
state `sk` exactly when the failing step returned its input unchanged, which a
failing `BuyEggs` does, while a failing `Drive` returns `sk` with fuel 0. -/
theorem C12_failure_state (s sk s1 : Shopper) (pre post : List Step) (f : Step)
    (err : GoError) (n : Int)
    (hpre : succeedsTo s pre sk) (hf : f sk = (s1, some err)) :
    ProcessSteps s (pre ++ f :: post) = (s1, some err) ∧
    ((ProcessSteps s (pre ++ f :: post)).1 = sk ↔ s1 = sk) ∧
    ((BuyEggs sk n).2 ≠ none → (BuyEggs sk n).1 = sk) ∧
    ((Drive sk n).2 ≠ none → (Drive sk n).1 = { sk with Fuel := 0 }) := by
  have key : ProcessSteps s (pre ++ f :: post) = (s1, some err) := by
    rw [processSteps_append_of_succeedsTo hpre, processSteps_cons_some hf]
  refine ⟨key, by rw [key], ?_, ?_⟩
  · intro h
    simp only [BuyEggs] at h ⊢
    split_ifs at h ⊢
    · rfl
    · rfl
    · exact absurd rfl h
  · intro h
    simp only [Drive] at h ⊢
    split_ifs at h ⊢
    · rfl
    · exact absurd rfl h

/-- Witness of C12: buying 25 eggs after a drive fails and returns the state
reached by the drive; the step after it plays no part. -/
theorem C12_failure_state_witness :
    ProcessSteps (NewShopper 15 10)
      ([Flavorize Drive 5] ++ Flavorize BuyEggs 25 :: [Flavorize Drive 4])
      = (⟨10, 10, 0⟩, some (InsufficientSupply 24 25)) ∧
    (BuyEggs ⟨10, 10, 0⟩ 25).1 = ⟨10, 10, 0⟩ :=
  have h := C12_failure_state (NewShopper 15 10) ⟨10, 10, 0⟩ ⟨10, 10, 0⟩
    [Flavorize Drive 5] [Flavorize Drive 4] (Flavorize BuyEggs 25)
    (InsufficientSupply 24 25) 25 (by decide) (by decide)
  ⟨h.1, h.2.2.1 (by decide)⟩

/-- C13. Ordered checks in `BuyEggs`: for every shopper and every quantity (a
Go `int`) with `quantity <= EggsAvailableAtStore` and
`quantity * CostPerEgg > s.Dollars`, `BuyEggs` returns the shopper unchanged
and the insufficient-funds error, with message "only have D dollars, but need
C to buy Q eggs" for the funds, the cost and the quantity; and whenever the
quantity exceeds the supply the supply error is returned whatever the funds,
so the funds check is reached only after the supply check has passed. -/
theorem C13_ordered_checks (s : Shopper) (quantity : Int) (hq : isInt quantity)
    (h1 : quantity ≤ EggsAvailableAtStore) (h2 : quantity * CostPerEgg > s.Dollars) :
    BuyEggs s quantity
      = (s, some (InsufficientFunds s.Dollars (quantity * CostPerEgg) quantity)) ∧
    (InsufficientFunds s.Dollars (quantity * CostPerEgg) quantity).msg
      = "only have " ++ fmtD s.Dollars ++ " dollars, but need "
        ++ fmtD (quantity * CostPerEgg) ++ " to buy " ++ fmtD quantity ++ " eggs" ∧
    (∀ (s2 : Shopper) (q2 : Int), q2 > EggsAvailableAtStore →
      BuyEggs s2 q2 = (s2, some (InsufficientSupply EggsAvailableAtStore q2))) := by
  have hc : wrap (quantity * CostPerEgg) = quantity * CostPerEgg := by
    apply wrap_of_isInt
    simpa [CostPerEgg] using hq
  have hsup : ¬ (quantity > EggsAvailableAtStore) := not_lt.mpr h1
  refine ⟨?_, rfl, ?_⟩
  · simp only [BuyEggs, hsup, hc, h2, if_true, if_false, InsufficientFunds]
  · intro s2 q2 hq2
    simp only [BuyEggs, hq2, if_true, InsufficientSupply]

/-- Witness of C13: 3 dollars and 6 eggs wanted. -/
theorem C13_ordered_checks_witness :
    BuyEggs ⟨10, 3, 0⟩ 6 = (⟨10, 3, 0⟩, some (InsufficientFunds 3 (6 * CostPerEgg) 6)) ∧
    (InsufficientFunds 3 (6 * CostPerEgg) 6).msg
      = "only have 3 dollars, but need 6 to buy 6 eggs" :=
  ⟨(C13_ordered_checks ⟨10, 3, 0⟩ 6 (by decide) (by decide) (by decide)).1, by decide⟩

/-- C14. Error pre-check of v3: for every shopper `s`, integer `n` and non-nil
incoming error `e`, the v3 methods `Drive` and `BuyEggs` return `(s, e)`, the
receiver unchanged and the same error; with a nil incoming error they return
what the two-argument `Drive` and `BuyEggs` of v5/v7 return. -/
theorem C14_v3_precheck (s : Shopper) (n : Int) (e : GoError) :
    V3.Drive s n (some e) = (s, some e) ∧
    V3.BuyEggs s n (some e) = (s, some e) ∧
    V3.Drive s n none = Drive s n ∧
    V3.BuyEggs s n none = BuyEggs s n :=
  ⟨rfl, rfl, rfl, rfl⟩

/-- C15. The v5 wrapper: for every operation `f`, shopper `s`, integer `arg`
and incoming error, `ErrCheckFunc f` returns the incoming error and `s`
untouched when the error is non-nil, whatever `f` is, and returns the error
and the state of `f s arg`, in this order, when the incoming error is nil. -/
theorem C15_errCheckFunc (f : Operation) (s : Shopper) (arg : Int) (e : GoError) :
    ErrCheckFunc f (some e) s arg = (some e, s) ∧
    (∀ g : Operation, ErrCheckFunc g (some e) s arg = ErrCheckFunc f (some e) s arg) ∧
    ErrCheckFunc f none s arg = ((f s arg).2, (f s arg).1) :=
  ⟨rfl, fun _ => rfl, rfl⟩

/-- C16, as stated, fails: a shopper with 10 dollars and 9223372036854775800
eggs buys 10 eggs; the egg count wraps around, and `Dollars + CostPerEgg * Eggs`
of the returned state differs from that of the shopper. -/
theorem C16_conservation_counterexample :
    Shopper.valid ⟨10, 10, 9223372036854775800⟩ ∧ isInt 10 ∧
    BuyEggs ⟨10, 10, 9223372036854775800⟩ 10 = (⟨10, 0, -9223372036854775806⟩, none) ∧
    value ⟨10, 10, 9223372036854775800⟩ = 9223372036854775810 ∧
    value (BuyEggs ⟨10, 10, 9223372036854775800⟩ 10).1 = -9223372036854775806 ∧
    value (BuyEggs ⟨10, 10, 9223372036854775800⟩ 10).1
      ≠ value ⟨10, 10, 9223372036854775800⟩ := by
  decide

/-- C16, amended. Conservation of value: `Dollars + CostPerEgg * Eggs` is
preserved by `Drive` for every shopper and every integer argument; for every
shopper and every integer argument the value of the state returned by
`BuyEggs` is that of `s` up to 64-bit wrap-around, and equal to it when the
purchase fails, when `s.Eggs + n` and `s.Dollars - n * CostPerEgg` are
representable as `int`, and when the two values are representable; hence
`ProcessSteps` over any list of steps bound from `Drive`/`BuyEggs` to integer
arguments, from any state `s0`, returns a state whose value is that of `s0` up
to 64-bit wrap-around, equal to it when the two values are representable, and
equal to it when the arguments, dollars and eggs are non-negative with
`Dollars + Eggs` within the `int` range; from `NewShopper f d` with
non-negative `d` and non-negative arguments the eggs held never exceed
`d / CostPerEgg`. -/
theorem C16_conservation (s s0 : Shopper) (n f d : Int) (run steps : List Step)
    (hrun : ∀ st ∈ run, boundStep st)
    (hd : isInt d) (hd0 : 0 ≤ d)
    (hsteps : ∀ st ∈ steps, boundNonneg st) :
    value (Drive s n).1 = value s ∧
    ((BuyEggs s n).2 ≠ none → value (BuyEggs s n).1 = value s) ∧
    (isInt n → isInt (s.Eggs + n) → isInt (s.Dollars - n * CostPerEgg) →
      value (BuyEggs s n).1 = value s) ∧
    wrap (value (BuyEggs s n).1) = wrap (value s) ∧
    (isInt (value s) → isInt (value (BuyEggs s n).1) → value (BuyEggs s n).1 = value s) ∧
    wrap (value (ProcessSteps s0 run).1) = wrap (value s0) ∧
    (isInt (value s0) → isInt (value (ProcessSteps s0 run).1) →
      value (ProcessSteps s0 run).1 = value s0) ∧
    (s0.solvent → value (ProcessSteps s0 steps).1 = value s0) ∧
    value (ProcessSteps (NewShopper f d) steps).1 = value (NewShopper f d) ∧
    (ProcessSteps (NewShopper f d) steps).1.Eggs ≤ d / CostPerEgg := by
  have h0 : (NewShopper f d).solvent := by
    refine ⟨hd0, le_refl _, ?_⟩
    show d + 0 ≤ maxInt
    have := hd.2
    omega
  have hmod := buyEggs_value_mod s n
  have hrunmod : wrap (value (ProcessSteps s0 run).1) = wrap (value s0) :=
    processSteps_value_mod hrun
  refine ⟨drive_value s n, ?_, ?_, hmod, fun h1 h2 => eq_of_wrap_eq h2 h1 hmod, hrunmod,
    fun h1 h2 => eq_of_wrap_eq h2 h1 hrunmod,
    fun h => (processSteps_solvent h hsteps).2, (processSteps_solvent h0 hsteps).2, ?_⟩
  · intro hfail
    rw [buyEggs_fail_state hfail]
  · intro hn he hdl
    have hc : wrap (n * CostPerEgg) = n * CostPerEgg := by
      apply wrap_of_isInt
      simpa [CostPerEgg] using hn
    simp only [BuyEggs, value, hc, wrap_of_isInt he, wrap_of_isInt hdl]
    split_ifs
    · rfl
    · rfl
    · simp only [CostPerEgg, one_mul, mul_one]
      omega
  · obtain ⟨⟨hD, _, _⟩, hv⟩ := processSteps_solvent h0 hsteps
    have hd1 : value (NewShopper f d) = d := by
      simp only [value, NewShopper, mul_zero, add_zero]
    rw [hd1] at hv
    simp only [value, CostPerEgg, one_mul] at hv
    simp only [CostPerEgg, Int.ediv_one]
    omega

/-- Witness of C16: the configured purchase, a run from a negative fuel, a run
with a negative quantity, and the configured run. -/
theorem C16_conservation_witness :
    value (Drive ⟨15, 10, 0⟩ 6).1 = value ⟨15, 10, 0⟩ ∧
    value (BuyEggs ⟨15, 10, 0⟩ 6).1 = value ⟨15, 10, 0⟩ ∧
    value (ProcessSteps ⟨0, 0, 10⟩ [Flavorize BuyEggs (-5)]).1 = value ⟨0, 0, 10⟩ ∧
    value (ProcessSteps ⟨-1, 10, 0⟩ [Flavorize Drive 5, Flavorize BuyEggs 6]).1
      = value ⟨-1, 10, 0⟩ ∧
    (ProcessSteps (NewShopper 15 10)
      [Flavorize Drive 5, Flavorize BuyEggs 6]).1.Eggs ≤ 10 / CostPerEgg :=
  have hsteps : ∀ st ∈ [Flavorize Drive 5, Flavorize BuyEggs 6], boundNonneg st := by
    intro st hst
    simp only [List.mem_cons, List.mem_singleton, List.not_mem_nil, or_false] at hst
    rcases hst with h | h
    · exact ⟨5, by decide, by decide, Or.inl h⟩
    · exact ⟨6, by decide, by decide, Or.inr h⟩
  have hrun : ∀ st ∈ [Flavorize BuyEggs (-5)], boundStep st := by
    intro st hst
    simp only [List.mem_singleton] at hst
    exact ⟨-5, Or.inr hst⟩
  have h := C16_conservation ⟨15, 10, 0⟩ ⟨0, 0, 10⟩ 6 15 10
    [Flavorize BuyEggs (-5)] [Flavorize Drive 5, Flavorize BuyEggs 6]
    hrun (by decide) (by decide) hsteps
  have h2 := C16_conservation ⟨15, 10, 0⟩ ⟨-1, 10, 0⟩ 6 15 10
    [Flavorize BuyEggs (-5)] [Flavorize Drive 5, Flavorize BuyEggs 6]
    hrun (by decide) (by decide) hsteps
  ⟨h.1, h.2.2.1 (by decide) (by decide) (by decide),
    h.2.2.2.2.2.2.1 (by decide) (by decide),
    h2.2.2.2.2.2.2.2.1 (by decide), h.2.2.2.2.2.2.2.2.2⟩

/-- C17. Frame conditions: for every shopper and every integer argument,
`Drive` returns a state with the same dollars and eggs on the success and on
the failure branch, and `BuyEggs` returns a state with the same fuel on every
branch. -/
theorem C17_frame (s : Shopper) (n : Int) :
    (Drive s n).1.Dollars = s.Dollars ∧ (Drive s n).1.Eggs = s.Eggs ∧
    (BuyEggs s n).1.Fuel = s.Fuel :=
  ⟨(drive_frame s n).1, (drive_frame s n).2, buyEggs_frame s n⟩

/-- C18. Concatenation law of `ProcessSteps`: for every shopper and all step
lists `xs`, `ys`, running `xs ++ ys` gives the result of running `xs` when
that result has a non-nil error, and otherwise the result of running `ys` from
the state that `xs` returned. -/
theorem C18_concat (s : Shopper) (xs ys : List Step) :
    ProcessSteps s (xs ++ ys) =
      match ProcessSteps s xs with
      | (s1, none) => ProcessSteps s1 ys
      | (s1, some e) => (s1, some e) := by
  induction xs generalizing s with
  | nil => rfl
  | cons f fs ih =>
    rcases hfe : f s with ⟨s1, _ | e⟩
    · rw [List.cons_append, processSteps_cons_none hfe, processSteps_cons_none hfe]
      exact ih s1
    · rw [List.cons_append, processSteps_cons_some hfe, processSteps_cons_some hfe]

/-- C19, as stated, fails: with fuel -9223372036854775807 and `a = b = 1`
(non-negative, `a + b = 2` does not overflow) the first of the two steps fails
and leaves fuel 0, while the single call `Drive s (1 + 1)` wraps around and
succeeds with the largest `int` as fuel. -/
theorem C19_drive_additive_counterexample :
    Shopper.valid ⟨-9223372036854775807, 0, 0⟩ ∧ (0 : Int) ≤ 1 ∧ isInt (1 + 1) ∧
    ProcessSteps ⟨-9223372036854775807, 0, 0⟩ [Flavorize Drive 1, Flavorize Drive 1]
      = (⟨0, 0, 0⟩, some ⟨"ran out of gas -9223372036854775808 from destination"⟩) ∧
    Drive ⟨-9223372036854775807, 0, 0⟩ (1 + 1) = (⟨9223372036854775807, 0, 0⟩, none) := by
  decide

/-- C19, amended. Drive additivity: for every shopper whose fuel is a Go `int`
and all non-negative `a`, `b` with `a + b` not overflowing and
`s.Fuel - (a + b)` not below the smallest `int` (always so when
`s.Fuel >= 0`), the two steps `Drive a`, `Drive b` run by `ProcessSteps` and
the single call `Drive s (a + b)` return the same shopper and agree on whether
the error is nil: both succeed with fuel `s.Fuel - a - b` when
`s.Fuel >= a + b`, and otherwise both fail with fuel 0. -/
theorem C19_drive_additive (s : Shopper) (a b : Int) (hF : isInt s.Fuel)
    (ha : 0 ≤ a) (hb : 0 ≤ b) (hab : a + b ≤ maxInt)
    (hlow : minInt ≤ s.Fuel - (a + b)) :
    (ProcessSteps s [Flavorize Drive a, Flavorize Drive b]).1 = (Drive s (a + b)).1 ∧
    ((ProcessSteps s [Flavorize Drive a, Flavorize Drive b]).2 = none
      ↔ (Drive s (a + b)).2 = none) ∧
    (s.Fuel ≥ a + b →
      ProcessSteps s [Flavorize Drive a, Flavorize Drive b]
        = ({ s with Fuel := s.Fuel - a - b }, none) ∧
      Drive s (a + b) = ({ s with Fuel := s.Fuel - a - b }, none)) ∧
    (s.Fuel < a + b →
      (ProcessSteps s [Flavorize Drive a, Flavorize Drive b]).1 = { s with Fuel := 0 } ∧
      (ProcessSteps s [Flavorize Drive a, Flavorize Drive b]).2 ≠ none ∧
      (Drive s (a + b)).1 = { s with Fuel := 0 } ∧
      (Drive s (a + b)).2 ≠ none) := by
  have hFmax : s.Fuel ≤ maxInt := hF.2
  have hge : s.Fuel ≥ a + b →
      ProcessSteps s [Flavorize Drive a, Flavorize Drive b]
        = ({ s with Fuel := s.Fuel - a - b }, none) ∧
      Drive s (a + b) = ({ s with Fuel := s.Fuel - a - b }, none) := by
    intro h
    have h1 : Drive s a = ({ s with Fuel := s.Fuel - a }, none) :=
      drive_of_le (by omega) (by omega)
    have h2 : Drive { s with Fuel := s.Fuel - a } b
        = ({ s with Fuel := s.Fuel - a - b }, none) :=
      drive_of_le (s := { s with Fuel := s.Fuel - a }) (by show b ≤ s.Fuel - a; omega)
        (by show s.Fuel - a - b ≤ maxInt; omega)
    have h3 : Drive s (a + b) = ({ s with Fuel := s.Fuel - (a + b) }, none) :=
      drive_of_le (by omega) (by omega)
    have e : s.Fuel - (a + b) = s.Fuel - a - b := by omega
    rw [e] at h3
    refine ⟨?_, h3⟩
    have hs1 : Flavorize Drive a s = ({ s with Fuel := s.Fuel - a }, none) := h1
    have hs2 : Flavorize Drive b { s with Fuel := s.Fuel - a }
        = ({ s with Fuel := s.Fuel - a - b }, none) := h2
    rw [processSteps_cons_none hs1, processSteps_cons_none hs2]
    rfl
  have hlt : s.Fuel < a + b →
      (ProcessSteps s [Flavorize Drive a, Flavorize Drive b]).1 = { s with Fuel := 0 } ∧
      (ProcessSteps s [Flavorize Drive a, Flavorize Drive b]).2 ≠ none ∧
      (Drive s (a + b)).1 = { s with Fuel := 0 } ∧
      (Drive s (a + b)).2 ≠ none := by
    intro h
    obtain ⟨g1, g2⟩ := drive_of_lt (s := s) (n := a + b) h hlow
    refine ⟨?_, ?_, g1, g2⟩
    · by_cases hfa : s.Fuel < a
      · obtain ⟨k1, k2⟩ := drive_of_lt (s := s) (n := a) hfa (by omega)
        rcases hd : Drive s a with ⟨s1, _ | e1⟩
        · rw [hd] at k2
          exact absurd rfl k2
        · have hs1 : Flavorize Drive a s = (s1, some e1) := hd
          rw [processSteps_cons_some hs1]
          rw [hd] at k1
          exact k1
      · have h1 : Drive s a = ({ s with Fuel := s.Fuel - a }, none) :=
          drive_of_le (by omega) (by omega)
        have hs1 : Flavorize Drive a s = ({ s with Fuel := s.Fuel - a }, none) := h1
        obtain ⟨k1, k2⟩ := drive_of_lt (s := { s with Fuel := s.Fuel - a }) (n := b)
          (by show s.Fuel - a < b; omega) (by show minInt ≤ s.Fuel - a - b; omega)
        rw [processSteps_cons_none hs1]
        rcases hd : Drive { s with Fuel := s.Fuel - a } b with ⟨s2, _ | e2⟩
        · rw [hd] at k2
          exact absurd rfl k2
        · have hs2 : Flavorize Drive b { s with Fuel := s.Fuel - a } = (s2, some e2) := hd
          rw [processSteps_cons_some hs2]
          rw [hd] at k1
          exact k1
    · by_cases hfa : s.Fuel < a
      · obtain ⟨_, k2⟩ := drive_of_lt (s := s) (n := a) hfa (by omega)
        rcases hd : Drive s a with ⟨s1, _ | e1⟩
        · rw [hd] at k2
          exact absurd rfl k2
        · have hs1 : Flavorize Drive a s = (s1, some e1) := hd
          rw [processSteps_cons_some hs1]
          simp
      · have h1 : Drive s a = ({ s with Fuel := s.Fuel - a }, none) :=
          drive_of_le (by omega) (by omega)
        have hs1 : Flavorize Drive a s = ({ s with Fuel := s.Fuel - a }, none) := h1
        obtain ⟨_, k2⟩ := drive_of_lt (s := { s with Fuel := s.Fuel - a }) (n := b)
          (by show s.Fuel - a < b; omega) (by show minInt ≤ s.Fuel - a - b; omega)
        rw [processSteps_cons_none hs1]
        rcases hd : Drive { s with Fuel := s.Fuel - a } b with ⟨s2, _ | e2⟩
        · rw [hd] at k2
          exact absurd rfl k2
        · have hs2 : Flavorize Drive b { s with Fuel := s.Fuel - a } = (s2, some e2) := hd
          rw [processSteps_cons_some hs2]
          simp
  refine ⟨?_, ?_, hge, hlt⟩
  · by_cases h : s.Fuel ≥ a + b
    · obtain ⟨p, q⟩ := hge h
      rw [p, q]
    · obtain ⟨p, _, q, _⟩ := hlt (not_le.mp h)
      rw [p, q]
  · by_cases h : s.Fuel ≥ a + b
    · obtain ⟨p, q⟩ := hge h
      rw [p, q]
    · obtain ⟨_, p, _, q⟩ := hlt (not_le.mp h)
      exact ⟨fun x => absurd x p, fun x => absurd x q⟩

/-- Witness of C19: the two configured drives, 5 and 4, from 15 units of fuel. -/
theorem C19_drive_additive_witness :
    (ProcessSteps ⟨15, 10, 0⟩ [Flavorize Drive 5, Flavorize Drive 4]).1
      = (Drive ⟨15, 10, 0⟩ (5 + 4)).1 ∧
    ProcessSteps ⟨15, 10, 0⟩ [Flavorize Drive 5, Flavorize Drive 4]
      = (⟨15 - 5 - 4, 10, 0⟩, none) ∧
    Drive ⟨15, 10, 0⟩ (5 + 4) = (⟨15 - 5 - 4, 10, 0⟩, none) :=
  have h := C19_drive_additive ⟨15, 10, 0⟩ 5 4 (by decide) (by decide) (by decide)
    (by decide) (by decide)
  ⟨h.1, (h.2.2.1 (by decide)).1, (h.2.2.1 (by decide)).2⟩

/-- C20. No integer overflow on valid inputs: for every shopper with
non-negative `int` counters and `Dollars + Eggs` at most the largest `int`,
and every argument `n` with `0 <= n` at most the largest `int`, `Drive` and
`BuyEggs` computed with 64-bit wrap-around return exactly what they return with
exact unbounded integers (state, error and the numbers in its message), and
the result of each subtraction, negation, multiplication and addition that
they execute is representable. -/
theorem C20_no_overflow (s : Shopper) (n : Int) (hs : s.valid) (hpos : s.nonneg)
    (hsum : s.Dollars + s.Eggs ≤ maxInt) (hn0 : 0 ≤ n) (hn : n ≤ maxInt) :
    Drive s n = DriveExact s n ∧
    BuyEggs s n = BuyEggsExact s n ∧
    isInt (s.Fuel - n) ∧
    (s.Fuel - n < 0 → isInt ((s.Fuel - n) * -1)) ∧
    (¬ n > EggsAvailableAtStore → isInt (n * CostPerEgg)) ∧
    (¬ n > EggsAvailableAtStore → ¬ n * CostPerEgg > s.Dollars →
      isInt (s.Eggs + n) ∧ isInt (s.Dollars - n * CostPerEgg)) := by
  obtain ⟨hF, hD, hE⟩ := hpos
  obtain ⟨⟨_, hFm⟩, ⟨_, hDm⟩, ⟨_, hEm⟩⟩ := hs
  have i1 : isInt (s.Fuel - n) := by
    unfold isInt minInt maxInt at *
    omega
  have i2 : s.Fuel - n < 0 → isInt ((s.Fuel - n) * -1) := by
    intro h
    unfold isInt minInt maxInt at *
    omega
  have i3 : isInt (n * CostPerEgg) := by
    simp only [CostPerEgg, mul_one]
    unfold isInt minInt maxInt at *
    omega
  have i4 : ¬ n * CostPerEgg > s.Dollars →
      isInt (s.Eggs + n) ∧ isInt (s.Dollars - n * CostPerEgg) := by
    intro h
    simp only [CostPerEgg, mul_one] at h ⊢
    unfold isInt minInt maxInt at *
    omega
  refine ⟨?_, ?_, i1, i2, fun _ => i3, fun _ => i4⟩
  · simp only [Drive, DriveExact, wrap_of_isInt i1]
    split_ifs with h
    · rw [wrap_of_isInt (i2 h)]
    · rfl
  · simp only [BuyEggs, BuyEggsExact, wrap_of_isInt i3]
    split_ifs with h1 h2
    · rfl
    · rfl
    · obtain ⟨j1, j2⟩ := i4 h2
      rw [wrap_of_isInt j1, wrap_of_isInt j2]

/-- Witness of C20: the configured shopper buying the configured 6 eggs. -/
theorem C20_no_overflow_witness :
    Drive ⟨15, 10, 0⟩ 6 = DriveExact ⟨15, 10, 0⟩ 6 ∧
    BuyEggs ⟨15, 10, 0⟩ 6 = BuyEggsExact ⟨15, 10, 0⟩ 6 ∧
    isInt ((0 : Int) + 6) ∧ isInt ((10 : Int) - 6 * CostPerEgg) :=
  have h := C20_no_overflow ⟨15, 10, 0⟩ 6 (by decide) (by decide) (by decide) (by decide)
    (by decide)
  ⟨h.1, h.2.1, h.2.2.2.2.2 (by decide) (by decide)⟩

end Oneway
